import Mathlib

/-!
Verification of the schema collection and reference-resolution pipeline of
ng-spring-data-rest (src/ng-spring-data-rest.js).

The JavaScript source manipulates parsed JSON documents.  The embedding below
renders each JSON document kind the pipeline reads or writes as a Lean
structure whose fields are exactly the fields the code touches; a JSON object
used as a mapping is an association list in document iteration order (JSON
object keys are unique, which theorems assume through explicit `Nodup`
hypotheses where it matters).  An absent field is `none`.  HTTP fetches are
passed in as values (`Option` of the parsed response; `none` models a failed
request), and a call to `process.exit` after a diagnostic naming an entity is
an `Except.error` carrying that entity's name.  In-place mutation of a schema
is modelled by returning the rewritten schema.  JavaScript object identity of
the schemas in the `schemas` array (the source compares
`referencedSchema !== schema` with reference equality) is modelled by the
index of a schema in that array: the caller in the source always passes
`schema = schemas[i]` for the entity at position `i`, and distinct positions
hold distinct objects because each one is a separately parsed response.  The
returned array of referenced schemas (aliases into `schemas`) is therefore a
list of indices; `referencedSchemasOf` recovers the corresponding values.
-/

/-- A property of a JSON schema (`PropertySchema` in the specification).
Fields are the ones the source reads or writes: `type`, `format`, `title`,
`ref` (the JSON field `$ref`), the nested `properties` mapping, and a nested
`definitions` mapping (never touched by the code; carried to record that the
recursion of `removeTrivialTitles` does not descend into it). -/
inductive PropSchema : Type where
  | mk (type format title ref : Option String)
       (properties definitions : Option (List (String × PropSchema))) : PropSchema

/-- The `type` field of a property. -/
def PropSchema.type : PropSchema → Option String
  | .mk t _ _ _ _ _ => t

/-- The `format` field of a property. -/
def PropSchema.format : PropSchema → Option String
  | .mk _ f _ _ _ _ => f

/-- The `title` field of a property. -/
def PropSchema.title : PropSchema → Option String
  | .mk _ _ ti _ _ _ => ti

/-- The `$ref` field of a property. -/
def PropSchema.ref : PropSchema → Option String
  | .mk _ _ _ r _ _ => r

/-- The nested `properties` mapping of a property. -/
def PropSchema.properties : PropSchema → Option (List (String × PropSchema))
  | .mk _ _ _ _ ps _ => ps

/-- The nested `definitions` mapping of a property. -/
def PropSchema.definitions : PropSchema → Option (List (String × PropSchema))
  | .mk _ _ _ _ _ ds => ds

/-- A JSON schema document as fetched per entity (`SchemaDocument` in the
specification): `title`, top-level `properties`, top-level `definitions`,
and the `additionalProperties` flag. -/
structure SchemaDocument where
  title : Option String
  properties : Option (List (String × PropSchema))
  definitions : Option (List (String × PropSchema))
  additionalProperties : Option Bool

/-- A repository endpoint discovered from the profile document:
source objects of the shape `(name, href)` built by `collectEntities`. -/
structure EntityDescriptor where
  name : String
  href : String
deriving DecidableEq

/-- A link object inside the profile document's `_links` mapping. -/
structure ProfileLink where
  href : String
deriving DecidableEq

/-- The profile document: `linksMap` models the `_links` element
(`none` when the response has no `_links` element at all). -/
structure ProfileDocument where
  linksMap : Option (List (String × ProfileLink))

/-- A field descriptor inside an alps top-level descriptor: the source reads
its `name` and its optional `rt` (resource type) attribute. -/
structure AlpsFieldDescriptor where
  name : String
  rt : Option String
deriving DecidableEq

/-- A top-level descriptor of the alps document: the source matches its
`href` against the entity href and then reads its nested `descriptors`
array (either may be absent in the JSON). -/
structure AlpsTopDescriptor where
  href : Option String
  descriptors : Option (List AlpsFieldDescriptor)
deriving DecidableEq

/-- The alps affordance-descriptor document: `response.data.alps.descriptors`. -/
structure AlpsDocument where
  descriptors : List AlpsTopDescriptor

/-- The two pre-processing flags of the configuration
(`config.noAdditionalProperties` and `config.noTrivialTypes`). -/
structure Config where
  noAdditionalProperties : Bool
  noTrivialTypes : Bool

/-- JavaScript truthiness of an optional string value: `undefined` and the
empty string are falsy, every other string is truthy.  This is the test
`!property[...]` performs on the `$ref` field in `removeTrivialTitles`. -/
def jsTruthyStr : Option String → Bool
  | none => false
  | some s => s ≠ ""

/-- Reading `object[k]` on a JSON object modelled as an association list
(keys are unique in JSON, so the first match is the only match). -/
def getProp (object : List (String × PropSchema)) (k : String) : Option PropSchema :=
  (object.find? (fun kp => kp.1 == k)).map (·.2)

/-- Writing `object[k] = p` (in-place mutation of the property object held at
key `k`, rendered as rebuilding the association list). -/
def setProp (object : List (String × PropSchema)) (k : String) (p : PropSchema) :
    List (String × PropSchema) :=
  object.map (fun kp => if kp.1 == k then (kp.1, p) else kp)

/-- Following a path of keys through nested `properties` mappings:
`lookupPath object [k1, ..., kn]` is the property reached from `object` by
reading key `k1` and then descending through the `properties` mapping of each
intermediate property.  Used to speak about properties at arbitrary nesting
depth. -/
def lookupPath (object : List (String × PropSchema)) : List String → Option PropSchema
  | [] => none
  | [k] => getProp object k
  | k :: k2 :: ks =>
    match getProp object k with
    | none => none
    | some p =>
      match p.properties with
      | none => none
      | some ps => lookupPath ps (k2 :: ks)

/-- Source lines 191-211 (`collectEntities`): from the profile response,
fail when the fetch failed (the `.catch` branch, exit code 3) or when the
response has no `_links` element (exit code 4); otherwise take every key of
`_links` other than `self`, in iteration order, and build `(name, href)`
descriptors by looking the key back up in `_links`.  The lookup cannot miss
because the keys come from the same object; the `Option.getD` default is dead
code kept only to make the function total. -/
def collectEntities (profileResponse : Option ProfileDocument) :
    Except String (List EntityDescriptor) :=
  match profileResponse with
  | none => .error "Collecting entities failed."
  | some data =>
    match data.linksMap with
    | none => .error "Response does not contain _links element."
    | some links =>
      .ok (((links.map (·.1)).filter (fun k => k != "self")).map
        (fun k =>
          { name := k
            href := (((links.find? (fun kl => kl.1 == k)).map (·.2.href)).getD "") }))

/-- Source lines 219-235 (`collectSchemas`): fetch the schema of each entity
sequentially, in input order; the first failed fetch aborts the run naming
the entity (exit code 4, modelled as `Except.error` with the entity name). -/
def collectSchemas (fetchSchema : String → Option SchemaDocument) :
    List EntityDescriptor → Except String (List SchemaDocument)
  | [] => .ok []
  | entity :: rest =>
    match fetchSchema entity.href with
    | none => .error entity.name
    | some data =>
      match collectSchemas fetchSchema rest with
      | .ok schemas => .ok (data :: schemas)
      | .error m => .error m

mutual

/-- The body of the loop of `removeTrivialTitles` (source lines 262-270) for
one property: delete `title` when `$ref` is falsy, and recurse into the
nested `properties` mapping when it is present (an object, even empty, is
truthy in JavaScript; `none` models absence).  All other fields, including a
nested `definitions` mapping, are untouched. -/
def removeTrivialTitlesProp : PropSchema → PropSchema
  | .mk t f ti r props defs =>
    .mk t f (if jsTruthyStr r then ti else none) r (removeTrivialTitlesOpt props) defs

/-- The conditional recursion `if (property.properties) removeTrivialTitles(...)`
of the source, lifted to the optional nested mapping. -/
def removeTrivialTitlesOpt : Option (List (String × PropSchema)) →
    Option (List (String × PropSchema))
  | none => none
  | some ps => some (removeTrivialTitles ps)

/-- Source lines 261-271 (`removeTrivialTitles`): for every key of the given
object, delete the `title` of the property held there unless its `$ref` is
truthy, and recurse into its nested `properties` mapping. -/
def removeTrivialTitles : List (String × PropSchema) → List (String × PropSchema)
  | [] => []
  | (k, p) :: rest => (k, removeTrivialTitlesProp p) :: removeTrivialTitles rest

end

/-- The per-schema body of `preProcessSchemas` (source lines 244-252): force
`additionalProperties = false` under the first flag, and run
`removeTrivialTitles` over the top-level `properties` and `definitions`
mappings under the second flag.  The source passes `schema.properties || {}`,
so an absent mapping stays absent (the fresh empty object is discarded). -/
def preProcessSchema (config : Config) (schema : SchemaDocument) : SchemaDocument :=
  let schema1 :=
    if config.noAdditionalProperties then
      { schema with additionalProperties := some false }
    else schema
  if config.noTrivialTypes then
    { schema1 with
        properties := removeTrivialTitlesOpt schema1.properties
        definitions := removeTrivialTitlesOpt schema1.definitions }
  else schema1

/-- Source lines 243-253 (`preProcessSchemas`): apply the configured
mutations to every schema of the list. -/
def preProcessSchemas (schemas : List SchemaDocument) (config : Config) :
    List SchemaDocument :=
  schemas.map (preProcessSchema config)

/-- The substring operation of source line 316:
`referencedHref.substr(0, referencedHref.lastIndexOf(t))` for the character
`#` — everything before the last `#`, and the empty string when there is no
`#` (then `lastIndexOf` is `-1` and `substr` with negative length yields the
empty string). -/
def substrToLastHash (s : String) : String :=
  String.mk (((s.data.reverse.dropWhile (fun c => c != '#')).drop 1).reverse)

/-- The mutation of source lines 311-312: set `type` to `"object"` and delete
`format`; every other field of the property object is untouched. -/
def markObject : PropSchema → PropSchema
  | .mk _ _ title ref props defs => .mk (some "object") none title ref props defs

/-- The mutation of source line 319: assign the property's `title`
(an absent referenced title assigns `undefined`, modelled as `none`). -/
def withTitle : PropSchema → Option String → PropSchema
  | .mk t f _ r props defs, title => .mk t f title r props defs

/-- Source lines 300-301: the keys of `schema.properties` whose property has
`type === "string"` and `format === "uri"` (key list in iteration order, each
key looked back up in the same object, exactly as the source filters
`Object.keys`). -/
def relevantPropertyNames (properties : List (String × PropSchema)) : List String :=
  (properties.map (·.1)).filter (fun k =>
    match getProp properties k with
    | some p => p.type == some "string" && p.format == some "uri"
    | none => false)

/-- Source lines 315-317 for one field name `k`: find the affordance field
descriptor named `k`, read its `rt`, strip the fragment, and find the index
of the entity whose href equals the result.  `none` models every failure
along the chain, each of which throws in the source (`undefined.rt`,
`undefined.substr`, and a failed entity match which makes
`entities.indexOf(referencedEntity)` yield `-1` so that `schemas[-1].title`
throws); the enclosing `.catch` turns each throw into the fatal exit. -/
def descriptorTargetIdx (entityDescriptors : Option (List AlpsFieldDescriptor))
    (entities : List EntityDescriptor) (k : String) : Option Nat :=
  match entityDescriptors with
  | none => none
  | some ds =>
    match ds.find? (fun d => d.name == k) with
    | none => none
    | some d =>
      match d.rt with
      | none => none
      | some rt => entities.findIdx? (fun e => e.href == substrToLastHash rt)

/-- The `forEach` of source lines 307-324 over the relevant property names,
threading the mutated properties object and the list of referenced schemas
(as indices into `schemas`, see the module comment).  Any failure along a
field's lookup chain throws in the source and reaches the `.catch`, which
prints a diagnostic naming the entity and exits: modelled as `Except.error`
with the entity name `ename`.  On a successful step the property is rewritten
to `type "object"`, no `format`, and the referenced schema's `title`, and the
referenced index is pushed unless it is the resolving schema itself
(`referencedSchema !== schema`). -/
def resolveLoop (ename : String) (entityDescriptors : Option (List AlpsFieldDescriptor))
    (entities : List EntityDescriptor) (schemas : List SchemaDocument) (selfIdx : Nat) :
    List String → List (String × PropSchema) → List Nat →
    Except String (List (String × PropSchema) × List Nat)
  | [], properties, referenced => .ok (properties, referenced)
  | k :: ks, properties, referenced =>
    match getProp properties k with
    | none => .error ename
    | some property =>
      let properties1 := setProp properties k (markObject property)
      match descriptorTargetIdx entityDescriptors entities k with
      | none => .error ename
      | some idx =>
        match schemas[idx]? with
        | none => .error ename
        | some referencedSchema =>
          let properties2 :=
            setProp properties1 k (withTitle (markObject property) referencedSchema.title)
          let referenced1 := if idx ≠ selfIdx then referenced ++ [idx] else referenced
          resolveLoop ename entityDescriptors entities schemas selfIdx ks
            properties2 referenced1

/-- Source lines 289-331 (`resolveUrlStringReferences`): given the alps
response for `entity` (`none` when the fetch failed), the schema being
resolved (the source receives the object `schemas[selfIdx]`; `selfIdx` models
its identity, see the module comment), and the complete entity and schema
lists, rewrite every `type "string"` / `format "uri"` property and collect
the referenced schemas.  The top-level descriptor whose `href` equals the
entity href is located first (a miss throws on `.descriptors`), then the
relevant property names are computed (absent `schema.properties` makes
`Object.keys` throw); every throw reaches the `.catch`, which exits after a
diagnostic naming the entity, modelled as `Except.error entity.name`. -/
def resolveUrlStringReferences (alpsResponse : Option AlpsDocument)
    (entity : EntityDescriptor) (schema : SchemaDocument) (selfIdx : Nat)
    (entities : List EntityDescriptor) (schemas : List SchemaDocument) :
    Except String (SchemaDocument × List Nat) :=
  match alpsResponse with
  | none => .error entity.name
  | some doc =>
    match doc.descriptors.find? (fun d => d.href == some entity.href) with
    | none => .error entity.name
    | some topDescriptor =>
      match schema.properties with
      | none => .error entity.name
      | some properties =>
        match resolveLoop entity.name topDescriptor.descriptors entities schemas selfIdx
            (relevantPropertyNames properties) properties [] with
        | .error m => .error m
        | .ok (properties2, referenced) =>
          .ok ({ schema with properties := some properties2 }, referenced)

/-- The referenced-schema values designated by a list of indices into
`schemas` (the JavaScript return value holds aliases into the `schemas`
array; every index produced by `resolveLoop` is in range). -/
def referencedSchemasOf (schemas : List SchemaDocument) (referenced : List Nat) :
    List SchemaDocument :=
  referenced.filterMap (fun i => schemas[i]?)

/-- A placeholder schema document, used only as the unreachable default of
`Option.getD` in theorem statements about `collectSchemas`. -/
def emptySchemaDocument : SchemaDocument := ⟨none, none, none, none⟩

/-! Concrete data: the books/authors scenario of the specification, a
magazines scenario with two fields referencing the same entity, and small
schemas exercising the normalizer. -/

/-- The books repository endpoint of the example scenario. -/
def booksEntity : EntityDescriptor := ⟨"books", "/api/books"⟩

/-- The authors repository endpoint of the example scenario. -/
def authorsEntity : EntityDescriptor := ⟨"authors", "/api/authors"⟩

/-- The discovered entity list of the example scenario. -/
def demoEntities : List EntityDescriptor := [booksEntity, authorsEntity]

/-- A `type "string"` / `format "uri"` property (a foreign reference). -/
def authorUriProp : PropSchema :=
  .mk (some "string") (some "uri") none none none none

/-- A plain string property with a title and no format. -/
def bookNameProp : PropSchema :=
  .mk (some "string") none (some "Name") none none none

/-- The properties mapping of the books schema. -/
def booksProps : List (String × PropSchema) :=
  [("author", authorUriProp), ("name", bookNameProp)]

/-- The books schema of the example scenario. -/
def booksSchema : SchemaDocument := ⟨some "Book", some booksProps, none, none⟩

/-- The authors schema of the example scenario, titled `Author`. -/
def authorsSchema : SchemaDocument := ⟨some "Author", some [], none, none⟩

/-- The collected schema list of the example scenario, index-aligned with
`demoEntities`. -/
def demoSchemas : List SchemaDocument := [booksSchema, authorsSchema]

/-- The schema fetch of the example scenario as a function of the href. -/
def demoFetchSchema : String → Option SchemaDocument := fun href =>
  if href = "/api/books" then some booksSchema
  else if href = "/api/authors" then some authorsSchema
  else none

/-- The alps top-level descriptor for the books entity: its `rt` points the
`author` field at the authors entity. -/
def booksTopDescriptor : AlpsTopDescriptor :=
  ⟨some "/api/books",
   some [⟨"author", some "/api/authors#author"⟩, ⟨"name", none⟩]⟩

/-- The alps document fetched for the books entity. -/
def booksAlps : AlpsDocument := ⟨[booksTopDescriptor]⟩

/-- The author property after resolution: object type, no format, the
referenced schema's title. -/
def authorObjectProp : PropSchema :=
  .mk (some "object") none (some "Author") none none none

/-- The books schema after reference resolution. -/
def booksSchemaResolved : SchemaDocument :=
  ⟨some "Book", some [("author", authorObjectProp), ("name", bookNameProp)], none, none⟩

/-- The `_links` mapping of the profile document of the example scenario. -/
def demoLinks : List (String × ProfileLink) :=
  [("self", ⟨"/api"⟩), ("books", ⟨"/api/books"⟩), ("authors", ⟨"/api/authors"⟩)]

/-- A magazines endpoint whose schema references the authors entity twice. -/
def magazinesEntity : EntityDescriptor := ⟨"magazines", "/api/magazines"⟩

/-- The magazines schema: two distinct uri-format fields. -/
def magazinesSchema : SchemaDocument :=
  ⟨some "Magazine", some [("author", authorUriProp), ("editor", authorUriProp)],
   none, none⟩

/-- Entity list of the duplicate-reference scenario. -/
def dupEntities : List EntityDescriptor := [magazinesEntity, authorsEntity]

/-- Schema list of the duplicate-reference scenario. -/
def dupSchemas : List SchemaDocument := [magazinesSchema, authorsSchema]

/-- The alps document for the magazines entity: both fields' `rt` point at
the authors entity (different fragments, same base href). -/
def magazinesAlps : AlpsDocument :=
  ⟨[⟨some "/api/magazines",
     some [⟨"author", some "/api/authors#author"⟩,
           ⟨"editor", some "/api/authors#editor"⟩]⟩]⟩

/-- The magazines schema after resolution: both fields rewritten. -/
def magazinesSchemaResolved : SchemaDocument :=
  ⟨some "Magazine",
   some [("author", authorObjectProp), ("editor", authorObjectProp)], none, none⟩

/-- A property whose `$ref` field is present but equal to the empty string
(falsy in JavaScript). -/
def emptyRefProp : PropSchema :=
  .mk (some "string") none (some "Contact") (some "") none none

/-- A schema holding `emptyRefProp` under the key `contact`. -/
def schemaWithEmptyRef : SchemaDocument :=
  ⟨some "Sample", some [("contact", emptyRefProp)], none, none⟩

/-- The configuration enabling only the strip-trivial-titles flag. -/
def stripConfig : Config := ⟨false, true⟩

/-- A titled, `$ref`-less property sitting two properties-levels deep. -/
def deepTitledProp : PropSchema :=
  .mk (some "string") none (some "Deep") none none none

/-- An untitled intermediate property holding `deepTitledProp` under `q`. -/
def midProp : PropSchema :=
  .mk none none none none (some [("q", deepTitledProp)]) none

/-- A definition entry whose properties nest two levels deep. -/
def defEntryProp : PropSchema :=
  .mk none none (some "D") none (some [("p", midProp)]) none

/-- A schema whose `definitions` mapping holds `defEntryProp` under `d`. -/
def schemaWithDeepDefinition : SchemaDocument :=
  ⟨some "Sample", none, some [("d", defEntryProp)], none⟩

/-- A property with a truthy `$ref` and a title. -/
def refTitledProp : PropSchema :=
  .mk none none (some "Address") (some "#/definitions/address") none none

/-- A schema holding `refTitledProp` under the key `addr`. -/
def schemaWithRefProp : SchemaDocument :=
  ⟨some "Customer", some [("addr", refTitledProp)], none, none⟩


/-! Basic facts about the field accessors and the association-list
operations. -/

theorem removeTrivialTitlesProp_type (p : PropSchema) :
    (removeTrivialTitlesProp p).type = p.type := by
  cases p ; rfl

theorem removeTrivialTitlesProp_format (p : PropSchema) :
    (removeTrivialTitlesProp p).format = p.format := by
  cases p ; rfl

theorem removeTrivialTitlesProp_ref (p : PropSchema) :
    (removeTrivialTitlesProp p).ref = p.ref := by
  cases p ; rfl

theorem removeTrivialTitlesProp_definitions (p : PropSchema) :
    (removeTrivialTitlesProp p).definitions = p.definitions := by
  cases p ; rfl

theorem removeTrivialTitlesProp_title (p : PropSchema) :
    (removeTrivialTitlesProp p).title = if jsTruthyStr p.ref then p.title else none := by
  cases p ; rfl

theorem removeTrivialTitlesProp_properties (p : PropSchema) :
    (removeTrivialTitlesProp p).properties = removeTrivialTitlesOpt p.properties := by
  cases p ; rfl

theorem getProp_cons (k0 : String) (p0 : PropSchema) (rest : List (String × PropSchema))
    (k : String) :
    getProp ((k0, p0) :: rest) k = if k0 == k then some p0 else getProp rest k := by
  unfold getProp
  cases h0 : k0 == k
  · rw [List.find?_cons_of_neg _ (by simpa using h0)]
    simp
  · rw [List.find?_cons_of_pos _ (by simpa using h0)]
    simp

theorem setProp_cons_self {k0 k : String} (h : k0 = k) (p0 : PropSchema)
    (rest : List (String × PropSchema)) (v : PropSchema) :
    setProp ((k0, p0) :: rest) k v = (k0, v) :: setProp rest k v := by
  unfold setProp
  simp [h]

theorem setProp_cons_ne {k0 k : String} (h : ¬k0 = k) (p0 : PropSchema)
    (rest : List (String × PropSchema)) (v : PropSchema) :
    setProp ((k0, p0) :: rest) k v = (k0, p0) :: setProp rest k v := by
  unfold setProp
  simp [h]

theorem getProp_eq_some_mem {ps : List (String × PropSchema)} {k : String} {p : PropSchema}
    (h : getProp ps k = some p) : k ∈ ps.map Prod.fst := by
  induction ps with
  | nil => simp [getProp] at h
  | cons kp rest ih =>
    obtain ⟨k0, p0⟩ := kp
    rw [getProp_cons] at h
    by_cases h0 : k0 = k
    · subst h0
      exact List.mem_map.mpr ⟨(k0, p0), List.mem_cons_self _ _, rfl⟩
    · rw [if_neg (by simpa using h0)] at h
      simp [ih h]

theorem mem_keys_getProp_isSome {ps : List (String × PropSchema)} {k : String}
    (h : k ∈ ps.map Prod.fst) : (getProp ps k).isSome = true := by
  induction ps with
  | nil => simp at h
  | cons kp rest ih =>
    obtain ⟨k0, p0⟩ := kp
    rw [getProp_cons]
    by_cases h0 : k0 = k
    · rw [if_pos (by simpa using h0)] ; rfl
    · rw [if_neg (by simpa using h0)]
      simp only [List.map_cons, List.mem_cons] at h
      rcases h with h | h
      · exact absurd h.symm h0
      · exact ih h

theorem getProp_setProp_ne {ps : List (String × PropSchema)} {k k' : String}
    (v : PropSchema) (h : k' ≠ k) :
    getProp (setProp ps k v) k' = getProp ps k' := by
  induction ps with
  | nil => rfl
  | cons kp rest ih =>
    obtain ⟨k0, p0⟩ := kp
    by_cases h0 : k0 = k
    · rw [setProp_cons_self h0, getProp_cons, getProp_cons]
      have hne : ¬k0 = k' := fun hh => h ((hh ▸ h0 : k' = k))
      rw [if_neg (by simpa using hne), if_neg (by simpa using hne), ih]
    · rw [setProp_cons_ne h0, getProp_cons, getProp_cons]
      by_cases h1 : k0 = k'
      · rw [if_pos (by simpa using h1), if_pos (by simpa using h1)]
      · rw [if_neg (by simpa using h1), if_neg (by simpa using h1), ih]

theorem getProp_setProp_self {ps : List (String × PropSchema)} {k : String} {p : PropSchema}
    (v : PropSchema) (h : getProp ps k = some p) :
    getProp (setProp ps k v) k = some v := by
  induction ps with
  | nil => simp [getProp] at h
  | cons kp rest ih =>
    obtain ⟨k0, p0⟩ := kp
    rw [getProp_cons] at h
    by_cases h0 : k0 = k
    · rw [setProp_cons_self h0, getProp_cons, if_pos (by simpa using h0)]
    · rw [if_neg (by simpa using h0)] at h
      rw [setProp_cons_ne h0, getProp_cons, if_neg (by simpa using h0)]
      exact ih h

theorem getProp_isSome_setProp (ps : List (String × PropSchema)) (k k' : String)
    (v : PropSchema) :
    (getProp (setProp ps k' v) k).isSome = (getProp ps k).isSome := by
  induction ps with
  | nil => rfl
  | cons kp rest ih =>
    obtain ⟨k0, p0⟩ := kp
    by_cases h0 : k0 = k'
    · rw [setProp_cons_self h0, getProp_cons, getProp_cons]
      by_cases h1 : k0 = k
      · rw [if_pos (by simpa using h1), if_pos (by simpa using h1)] ; rfl
      · rw [if_neg (by simpa using h1), if_neg (by simpa using h1)] ; exact ih
    · rw [setProp_cons_ne h0, getProp_cons, getProp_cons]
      by_cases h1 : k0 = k
      · rw [if_pos (by simpa using h1), if_pos (by simpa using h1)]
      · rw [if_neg (by simpa using h1), if_neg (by simpa using h1)] ; exact ih

theorem getElem?_setProp (ps : List (String × PropSchema)) (k : String) (v : PropSchema)
    (i : Nat) :
    (setProp ps k v)[i]? = (ps[i]?).map (fun kp => if kp.1 == k then (kp.1, v) else kp) := by
  simp [setProp]

theorem getProp_of_nodup {ps : List (String × PropSchema)} {i : Nat} {k : String}
    {p : PropSchema} (hnd : (ps.map Prod.fst).Nodup) (h : ps[i]? = some (k, p)) :
    getProp ps k = some p := by
  induction ps generalizing i with
  | nil => simp at h
  | cons kp rest ih =>
    obtain ⟨k0, p0⟩ := kp
    simp only [List.map_cons, List.nodup_cons] at hnd
    cases i with
    | zero =>
      simp only [List.getElem?_cons_zero, Option.some_inj, Prod.mk.injEq] at h
      rw [getProp_cons, if_pos (by simpa using h.1), h.2]
    | succ j =>
      simp only [List.getElem?_cons_succ] at h
      have hmem : k ∈ rest.map Prod.fst := by
        obtain ⟨hj, heq⟩ := List.getElem?_eq_some_iff.mp h
        exact List.mem_map.mpr ⟨(k, p), heq ▸ List.getElem_mem hj, rfl⟩
      have hne : ¬k0 = k := fun hh => hnd.1 (hh.symm ▸ hmem)
      rw [getProp_cons, if_neg (by simpa using hne)]
      exact ih hnd.2 h

theorem mem_relevantPropertyNames (ps : List (String × PropSchema)) (k : String) :
    k ∈ relevantPropertyNames ps ↔
      ∃ p, getProp ps k = some p ∧ p.type = some "string" ∧ p.format = some "uri" := by
  unfold relevantPropertyNames
  rw [List.mem_filter]
  constructor
  · rintro ⟨hmem, hpred⟩
    cases h : getProp ps k with
    | none => rw [h] at hpred ; simp at hpred
    | some p =>
      refine ⟨p, rfl, ?_⟩
      rw [h] at hpred
      simpa [Bool.and_eq_true, beq_iff_eq] using hpred
  · rintro ⟨p, hp, ht, hf⟩
    refine ⟨getProp_eq_some_mem hp, ?_⟩
    rw [hp]
    simp [ht, hf]

theorem nodup_relevantPropertyNames {ps : List (String × PropSchema)}
    (hnd : (ps.map Prod.fst).Nodup) : (relevantPropertyNames ps).Nodup :=
  hnd.filter _

/-! Facts about the per-field loop of the reference resolver. -/

theorem resolveLoop_nil_eq (ename : String) (eds : Option (List AlpsFieldDescriptor))
    (entities : List EntityDescriptor) (schemas : List SchemaDocument) (selfIdx : Nat)
    (props : List (String × PropSchema)) (refs : List Nat) :
    resolveLoop ename eds entities schemas selfIdx [] props refs = .ok (props, refs) := rfl

theorem resolveLoop_cons_ok {ename : String} {eds : Option (List AlpsFieldDescriptor)}
    {entities : List EntityDescriptor} {schemas : List SchemaDocument} {selfIdx : Nat}
    {k0 : String} {ks : List String} {props : List (String × PropSchema)} {refs : List Nat}
    {props' : List (String × PropSchema)} {refs' : List Nat}
    (h : resolveLoop ename eds entities schemas selfIdx (k0 :: ks) props refs
          = .ok (props', refs')) :
    ∃ property idx rs,
      getProp props k0 = some property ∧
      descriptorTargetIdx eds entities k0 = some idx ∧
      schemas[idx]? = some rs ∧
      resolveLoop ename eds entities schemas selfIdx ks
        (setProp (setProp props k0 (markObject property)) k0
          (withTitle (markObject property) rs.title))
        (if idx ≠ selfIdx then refs ++ [idx] else refs) = .ok (props', refs') := by
  unfold resolveLoop at h
  cases hgp : getProp props k0 with
  | none => simp [hgp] at h
  | some property =>
    simp only [hgp] at h
    cases hdti : descriptorTargetIdx eds entities k0 with
    | none => simp [hdti] at h
    | some idx =>
      simp only [hdti] at h
      cases hrs : schemas[idx]? with
      | none => simp [hrs] at h
      | some rs =>
        simp only [hrs] at h
        exact ⟨property, idx, rs, rfl, rfl, hrs, h⟩

theorem resolveLoop_cons_eq {ename : String} {eds : Option (List AlpsFieldDescriptor)}
    {entities : List EntityDescriptor} {schemas : List SchemaDocument} {selfIdx : Nat}
    {k0 : String} {ks : List String} {props : List (String × PropSchema)} {refs : List Nat}
    {property : PropSchema} {idx : Nat} {rs : SchemaDocument}
    (hgp : getProp props k0 = some property)
    (hdti : descriptorTargetIdx eds entities k0 = some idx)
    (hrs : schemas[idx]? = some rs) :
    resolveLoop ename eds entities schemas selfIdx (k0 :: ks) props refs =
      resolveLoop ename eds entities schemas selfIdx ks
        (setProp (setProp props k0 (markObject property)) k0
          (withTitle (markObject property) rs.title))
        (if idx ≠ selfIdx then refs ++ [idx] else refs) := by
  conv_lhs => rw [resolveLoop.eq_def]
  simp only [hgp, hdti, hrs]

theorem resolveLoop_frame {ename : String} {eds : Option (List AlpsFieldDescriptor)}
    {entities : List EntityDescriptor} {schemas : List SchemaDocument} {selfIdx : Nat}
    {ks : List String} {props : List (String × PropSchema)} {refs : List Nat}
    {props' : List (String × PropSchema)} {refs' : List Nat}
    (h : resolveLoop ename eds entities schemas selfIdx ks props refs = .ok (props', refs'))
    {i : Nat} {k : String} {p : PropSchema} (hi : props[i]? = some (k, p))
    (hk : k ∉ ks) : props'[i]? = some (k, p) := by
  induction ks generalizing props refs with
  | nil =>
    rw [resolveLoop_nil_eq] at h
    simp only [Except.ok.injEq, Prod.mk.injEq] at h
    rw [← h.1]
    exact hi
  | cons k0 ks ih =>
    obtain ⟨property, idx, rs, hgp, hdti, hrs, hrec⟩ := resolveLoop_cons_ok h
    simp only [List.mem_cons, not_or] at hk
    refine ih hrec ?_ hk.2
    rw [getElem?_setProp, getElem?_setProp, hi]
    simp [hk.1]

theorem resolveLoop_getProp_frame {ename : String} {eds : Option (List AlpsFieldDescriptor)}
    {entities : List EntityDescriptor} {schemas : List SchemaDocument} {selfIdx : Nat}
    {ks : List String} {props : List (String × PropSchema)} {refs : List Nat}
    {props' : List (String × PropSchema)} {refs' : List Nat}
    (h : resolveLoop ename eds entities schemas selfIdx ks props refs = .ok (props', refs'))
    {k : String} (hk : k ∉ ks) : getProp props' k = getProp props k := by
  induction ks generalizing props refs with
  | nil =>
    rw [resolveLoop_nil_eq] at h
    simp only [Except.ok.injEq, Prod.mk.injEq] at h
    rw [← h.1]
  | cons k0 ks ih =>
    obtain ⟨property, idx, rs, hgp, hdti, hrs, hrec⟩ := resolveLoop_cons_ok h
    simp only [List.mem_cons, not_or] at hk
    rw [ih hrec hk.2, getProp_setProp_ne _ hk.1, getProp_setProp_ne _ hk.1]

theorem resolveLoop_refs_mono {ename : String} {eds : Option (List AlpsFieldDescriptor)}
    {entities : List EntityDescriptor} {schemas : List SchemaDocument} {selfIdx : Nat}
    {ks : List String} {props : List (String × PropSchema)} {refs : List Nat}
    {props' : List (String × PropSchema)} {refs' : List Nat}
    (h : resolveLoop ename eds entities schemas selfIdx ks props refs = .ok (props', refs'))
    {j : Nat} (hj : j ∈ refs) : j ∈ refs' := by
  induction ks generalizing props refs with
  | nil =>
    rw [resolveLoop_nil_eq] at h
    simp only [Except.ok.injEq, Prod.mk.injEq] at h
    rw [← h.2]
    exact hj
  | cons k0 ks ih =>
    obtain ⟨property, idx, rs, hgp, hdti, hrs, hrec⟩ := resolveLoop_cons_ok h
    refine ih hrec ?_
    by_cases hsel : idx ≠ selfIdx
    · rw [if_pos hsel]
      exact List.mem_append_left _ hj
    · rw [if_neg hsel]
      exact hj

theorem resolveLoop_refs_bound {ename : String} {eds : Option (List AlpsFieldDescriptor)}
    {entities : List EntityDescriptor} {schemas : List SchemaDocument} {selfIdx : Nat}
    {ks : List String} {props : List (String × PropSchema)} {refs : List Nat}
    {props' : List (String × PropSchema)} {refs' : List Nat}
    (h : resolveLoop ename eds entities schemas selfIdx ks props refs = .ok (props', refs'))
    {j : Nat} (hj : j ∈ refs') : j ∈ refs ∨ j ≠ selfIdx := by
  induction ks generalizing props refs with
  | nil =>
    rw [resolveLoop_nil_eq] at h
    simp only [Except.ok.injEq, Prod.mk.injEq] at h
    rw [← h.2] at hj
    exact Or.inl hj
  | cons k0 ks ih =>
    obtain ⟨property, idx, rs, hgp, hdti, hrs, hrec⟩ := resolveLoop_cons_ok h
    rcases ih hrec with hmem | hne
    · by_cases hsel : idx ≠ selfIdx
      · rw [if_pos hsel] at hmem
        rcases List.mem_append.mp hmem with hmem | hmem
        · exact Or.inl hmem
        · simp only [List.mem_singleton] at hmem
          exact Or.inr (hmem ▸ hsel)
      · rw [if_neg hsel] at hmem
        exact Or.inl hmem
    · exact Or.inr hne

theorem resolveLoop_resolves {ename : String} {eds : Option (List AlpsFieldDescriptor)}
    {entities : List EntityDescriptor} {schemas : List SchemaDocument} {selfIdx : Nat}
    {ks : List String} {props : List (String × PropSchema)} {refs : List Nat}
    {props' : List (String × PropSchema)} {refs' : List Nat}
    (hnd : ks.Nodup)
    (h : resolveLoop ename eds entities schemas selfIdx ks props refs = .ok (props', refs'))
    {k : String} {p : PropSchema} (hk : k ∈ ks) (hp : getProp props k = some p) :
    ∃ idx rs,
      descriptorTargetIdx eds entities k = some idx ∧
      schemas[idx]? = some rs ∧
      getProp props' k = some (withTitle (markObject p) rs.title) ∧
      (idx ≠ selfIdx → idx ∈ refs') := by
  induction ks generalizing props refs with
  | nil => cases hk
  | cons k0 ks ih =>
    obtain ⟨property, idx, rs, hgp, hdti, hrs, hrec⟩ := resolveLoop_cons_ok h
    rcases List.mem_cons.mp hk with hke | hkm
    · subst hke
      rw [hp] at hgp
      obtain rfl : p = property := Option.some_inj.mp hgp
      have hk0notin : k ∉ ks := (List.nodup_cons.mp hnd).1
      refine ⟨idx, rs, hdti, hrs, ?_, ?_⟩
      · rw [resolveLoop_getProp_frame hrec hk0notin]
        exact getProp_setProp_self _
          (getProp_setProp_self (markObject p) hp)
      · intro hsel
        refine resolveLoop_refs_mono hrec ?_
        rw [if_pos hsel]
        exact List.mem_append_right _ (List.mem_singleton.mpr rfl)
    · have hne : k ≠ k0 := fun hh => (List.nodup_cons.mp hnd).1 (hh ▸ hkm)
      refine ih (List.nodup_cons.mp hnd).2 hrec hkm ?_
      rw [getProp_setProp_ne _ hne, getProp_setProp_ne _ hne]
      exact hp

theorem resolveLoop_error_name {ename : String} {eds : Option (List AlpsFieldDescriptor)}
    {entities : List EntityDescriptor} {schemas : List SchemaDocument} {selfIdx : Nat}
    {ks : List String} {props : List (String × PropSchema)} {refs : List Nat} {m : String}
    (h : resolveLoop ename eds entities schemas selfIdx ks props refs = .error m) :
    m = ename := by
  induction ks generalizing props refs with
  | nil => rw [resolveLoop_nil_eq] at h ; cases h
  | cons k0 ks ih =>
    unfold resolveLoop at h
    cases hgp : getProp props k0 with
    | none =>
      simp only [hgp, Except.error.injEq] at h
      exact h.symm
    | some property =>
      simp only [hgp] at h
      cases hdti : descriptorTargetIdx eds entities k0 with
      | none =>
        simp only [hdti, Except.error.injEq] at h
        exact h.symm
      | some idx =>
        simp only [hdti] at h
        cases hrs : schemas[idx]? with
        | none =>
          simp only [hrs, Except.error.injEq] at h
          exact h.symm
        | some rs =>
          simp only [hrs] at h
          exact ih h

theorem resolveLoop_isOk_iff {ename : String} {eds : Option (List AlpsFieldDescriptor)}
    {entities : List EntityDescriptor} {schemas : List SchemaDocument} {selfIdx : Nat} :
    ∀ {ks : List String} {props : List (String × PropSchema)} {refs : List Nat},
      (∀ k ∈ ks, (getProp props k).isSome = true) →
      ((∃ v, resolveLoop ename eds entities schemas selfIdx ks props refs = .ok v) ↔
       ∀ k ∈ ks, ∃ idx rs,
         descriptorTargetIdx eds entities k = some idx ∧ schemas[idx]? = some rs) := by
  intro ks
  induction ks with
  | nil =>
    intro props refs _
    constructor
    · intro _ k hk
      cases hk
    · intro _
      exact ⟨(props, refs), rfl⟩
  | cons k0 ks ih =>
    intro props refs hsome
    obtain ⟨property, hgp⟩ := Option.isSome_iff_exists.mp
      (hsome k0 (List.mem_cons_self _ _))
    rw [List.forall_mem_cons]
    constructor
    · rintro ⟨⟨props', refs'⟩, hv⟩
      obtain ⟨property', idx, rs, hgp', hdti, hrs, hrec⟩ := resolveLoop_cons_ok hv
      refine ⟨⟨idx, rs, hdti, hrs⟩, ?_⟩
      have hsome2 : ∀ k ∈ ks,
          (getProp (setProp (setProp props k0 (markObject property')) k0
            (withTitle (markObject property') rs.title)) k).isSome = true := by
        intro k hk
        rw [getProp_isSome_setProp, getProp_isSome_setProp]
        exact hsome k (List.mem_cons_of_mem _ hk)
      exact (ih hsome2).mp ⟨_, hrec⟩
    · rintro ⟨⟨idx, rs, hdti, hrs⟩, hall⟩
      have hsome2 : ∀ k ∈ ks,
          (getProp (setProp (setProp props k0 (markObject property)) k0
            (withTitle (markObject property) rs.title)) k).isSome = true := by
        intro k hk
        rw [getProp_isSome_setProp, getProp_isSome_setProp]
        exact hsome k (List.mem_cons_of_mem _ hk)
      obtain ⟨v, hv⟩ := (ih hsome2).mpr hall
      exact ⟨v, (resolveLoop_cons_eq hgp hdti hrs).trans hv⟩

/-! Facts about the top level of the reference resolver. -/

theorem markObject_type (p : PropSchema) : (markObject p).type = some "object" := by
  cases p ; rfl

theorem markObject_format (p : PropSchema) : (markObject p).format = none := by
  cases p ; rfl

theorem markObject_title (p : PropSchema) : (markObject p).title = p.title := by
  cases p ; rfl

theorem markObject_ref (p : PropSchema) : (markObject p).ref = p.ref := by
  cases p ; rfl

theorem markObject_properties (p : PropSchema) :
    (markObject p).properties = p.properties := by
  cases p ; rfl

theorem markObject_definitions (p : PropSchema) :
    (markObject p).definitions = p.definitions := by
  cases p ; rfl

theorem withTitle_type (p : PropSchema) (t : Option String) :
    (withTitle p t).type = p.type := by
  cases p ; rfl

theorem withTitle_format (p : PropSchema) (t : Option String) :
    (withTitle p t).format = p.format := by
  cases p ; rfl

theorem withTitle_title (p : PropSchema) (t : Option String) :
    (withTitle p t).title = t := by
  cases p ; rfl

theorem withTitle_ref (p : PropSchema) (t : Option String) :
    (withTitle p t).ref = p.ref := by
  cases p ; rfl

theorem withTitle_properties (p : PropSchema) (t : Option String) :
    (withTitle p t).properties = p.properties := by
  cases p ; rfl

theorem withTitle_definitions (p : PropSchema) (t : Option String) :
    (withTitle p t).definitions = p.definitions := by
  cases p ; rfl

theorem resolveUrlStringReferences_ok_inv {alps : Option AlpsDocument}
    {entity : EntityDescriptor} {schema : SchemaDocument} {selfIdx : Nat}
    {entities : List EntityDescriptor} {schemas : List SchemaDocument}
    {schema' : SchemaDocument} {referenced : List Nat}
    (h : resolveUrlStringReferences alps entity schema selfIdx entities schemas
          = .ok (schema', referenced)) :
    ∃ doc topDescriptor props props',
      alps = some doc ∧
      doc.descriptors.find? (fun d => d.href == some entity.href) = some topDescriptor ∧
      schema.properties = some props ∧
      resolveLoop entity.name topDescriptor.descriptors entities schemas selfIdx
        (relevantPropertyNames props) props [] = .ok (props', referenced) ∧
      schema' = { schema with properties := some props' } := by
  unfold resolveUrlStringReferences at h
  cases alps with
  | none => simp at h
  | some doc =>
    cases hfind : doc.descriptors.find? (fun d => d.href == some entity.href) with
    | none => simp [hfind] at h
    | some topDescriptor =>
      simp only [hfind] at h
      cases hprops : schema.properties with
      | none => simp [hprops] at h
      | some props =>
        simp only [hprops] at h
        cases hloop : resolveLoop entity.name topDescriptor.descriptors entities schemas
            selfIdx (relevantPropertyNames props) props [] with
        | error m => simp [hloop] at h
        | ok pr =>
          obtain ⟨props2, refs2⟩ := pr
          simp only [hloop, Except.ok.injEq, Prod.mk.injEq] at h
          obtain ⟨hs, hr⟩ := h
          exact ⟨doc, topDescriptor, props, props2, rfl, hfind, rfl,
            hr ▸ hloop, hs.symm⟩

theorem resolveUrlStringReferences_eq_ok {doc : AlpsDocument}
    {entity : EntityDescriptor} {schema : SchemaDocument} {selfIdx : Nat}
    {entities : List EntityDescriptor} {schemas : List SchemaDocument}
    {topDescriptor : AlpsTopDescriptor} {props props2 : List (String × PropSchema)}
    {refs2 : List Nat}
    (hfind : doc.descriptors.find? (fun d => d.href == some entity.href)
      = some topDescriptor)
    (hprops : schema.properties = some props)
    (hloop : resolveLoop entity.name topDescriptor.descriptors entities schemas selfIdx
      (relevantPropertyNames props) props [] = .ok (props2, refs2)) :
    resolveUrlStringReferences (some doc) entity schema selfIdx entities schemas
      = .ok ({ schema with properties := some props2 }, refs2) := by
  unfold resolveUrlStringReferences
  simp only [hfind, hprops, hloop]

theorem resolveUrlStringReferences_error_name {alps : Option AlpsDocument}
    {entity : EntityDescriptor} {schema : SchemaDocument} {selfIdx : Nat}
    {entities : List EntityDescriptor} {schemas : List SchemaDocument} {m : String}
    (h : resolveUrlStringReferences alps entity schema selfIdx entities schemas
          = .error m) : m = entity.name := by
  unfold resolveUrlStringReferences at h
  cases alps with
  | none =>
    simp only [Except.error.injEq] at h
    exact h.symm
  | some doc =>
    cases hfind : doc.descriptors.find? (fun d => d.href == some entity.href) with
    | none =>
      simp only [hfind, Except.error.injEq] at h
      exact h.symm
    | some topDescriptor =>
      simp only [hfind] at h
      cases hprops : schema.properties with
      | none =>
        simp only [hprops, Except.error.injEq] at h
        exact h.symm
      | some props =>
        simp only [hprops] at h
        cases hloop : resolveLoop entity.name topDescriptor.descriptors entities schemas
            selfIdx (relevantPropertyNames props) props [] with
        | error m2 =>
          simp only [hloop, Except.error.injEq] at h
          exact h ▸ resolveLoop_error_name hloop
        | ok pr =>
          obtain ⟨props2, refs2⟩ := pr
          simp [hloop] at h

/-- C1: Reference Resolver postcondition.  For every schema property `p` under
key `k` with type `"string"` and format `"uri"` whose affordance descriptor's
`rt` resolves to the known entity at index `idx` (schema `rs`), after a normal
return of `resolveUrlStringReferences` the property has type `"object"`, no
`format` field, and title equal to that entity's schema title (all other
fields untouched); and that entity's schema is a member of the returned
reference list (a list of indices into `schemas`, modelling the aliases the
source pushes) if and only if the entity is not the one being resolved. -/
theorem c1_resolver_postcondition (doc : AlpsDocument) (entity : EntityDescriptor)
    (schema : SchemaDocument) (selfIdx : Nat) (entities : List EntityDescriptor)
    (schemas : List SchemaDocument) (schema' : SchemaDocument) (referenced : List Nat)
    (props : List (String × PropSchema)) (k : String) (p : PropSchema)
    (topDescriptor : AlpsTopDescriptor) (idx : Nat) (rs : SchemaDocument)
    (hprops : schema.properties = some props)
    (hnodup : (props.map Prod.fst).Nodup)
    (hk : getProp props k = some p)
    (htype : p.type = some "string")
    (hformat : p.format = some "uri")
    (htop : doc.descriptors.find? (fun d => d.href == some entity.href)
      = some topDescriptor)
    (hidx : descriptorTargetIdx topDescriptor.descriptors entities k = some idx)
    (hrs : schemas[idx]? = some rs)
    (hok : resolveUrlStringReferences (some doc) entity schema selfIdx entities schemas
      = .ok (schema', referenced)) :
    ∃ props' p',
      schema'.properties = some props' ∧
      getProp props' k = some p' ∧
      p'.type = some "object" ∧
      p'.format = none ∧
      p'.title = rs.title ∧
      p'.ref = p.ref ∧
      p'.properties = p.properties ∧
      p'.definitions = p.definitions ∧
      (idx ∈ referenced ↔ idx ≠ selfIdx) := by
  obtain ⟨doc2, top2, props2, props', halps, hfind2, hprops2, hloop, hschema'⟩ :=
    resolveUrlStringReferences_ok_inv hok
  obtain rfl : doc = doc2 := Option.some_inj.mp halps
  rw [htop] at hfind2
  obtain rfl : topDescriptor = top2 := Option.some_inj.mp hfind2
  rw [hprops] at hprops2
  obtain rfl : props = props2 := Option.some_inj.mp hprops2
  have hkmem : k ∈ relevantPropertyNames props :=
    (mem_relevantPropertyNames props k).mpr ⟨p, hk, htype, hformat⟩
  obtain ⟨idx2, rs2, hidx2, hrs2, hgp', hpush⟩ :=
    resolveLoop_resolves (nodup_relevantPropertyNames hnodup) hloop hkmem hk
  rw [hidx] at hidx2
  obtain rfl : idx = idx2 := Option.some_inj.mp hidx2
  rw [hrs] at hrs2
  obtain rfl : rs = rs2 := Option.some_inj.mp hrs2
  refine ⟨props', withTitle (markObject p) rs.title, ?_, hgp', ?_, ?_, ?_, ?_, ?_, ?_, ?_⟩
  · rw [hschema']
  · rw [withTitle_type, markObject_type]
  · rw [withTitle_format, markObject_format]
  · rw [withTitle_title]
  · rw [withTitle_ref, markObject_ref]
  · rw [withTitle_properties, markObject_properties]
  · rw [withTitle_definitions, markObject_definitions]
  · constructor
    · intro hmem
      rcases resolveLoop_refs_bound hloop hmem with hin | hne
      · cases hin
      · exact hne
    · exact hpush

/-- C2: Reference Resolver frame condition.  On a normal return of
`resolveUrlStringReferences`, every entry of the properties mapping whose
property is not of type `"string"` with format `"uri"` is present, at its
position and under its key, completely unchanged in the output schema. -/
theorem c2_resolver_frame (alps : Option AlpsDocument) (entity : EntityDescriptor)
    (schema : SchemaDocument) (selfIdx : Nat) (entities : List EntityDescriptor)
    (schemas : List SchemaDocument) (schema' : SchemaDocument) (referenced : List Nat)
    (props : List (String × PropSchema)) (i : Nat) (k : String) (p : PropSchema)
    (hprops : schema.properties = some props)
    (hnodup : (props.map Prod.fst).Nodup)
    (hok : resolveUrlStringReferences alps entity schema selfIdx entities schemas
      = .ok (schema', referenced))
    (hi : props[i]? = some (k, p))
    (hnr : ¬(p.type = some "string" ∧ p.format = some "uri")) :
    ∃ props', schema'.properties = some props' ∧ props'[i]? = some (k, p) := by
  obtain ⟨doc2, top2, props2, props', _, _, hprops2, hloop, hschema'⟩ :=
    resolveUrlStringReferences_ok_inv hok
  rw [hprops] at hprops2
  obtain rfl : props = props2 := Option.some_inj.mp hprops2
  have hknotin : k ∉ relevantPropertyNames props := by
    intro hkmem
    obtain ⟨p2, hp2, ht2, hf2⟩ := (mem_relevantPropertyNames props k).mp hkmem
    rw [getProp_of_nodup hnodup hi] at hp2
    obtain rfl : p = p2 := Option.some_inj.mp hp2
    exact hnr ⟨ht2, hf2⟩
  refine ⟨props', ?_, resolveLoop_frame hloop hi hknotin⟩
  rw [hschema']

/-- C8: ResolutionError coverage.  Given a schema with a properties mapping
(the data model of the specification), `resolveUrlStringReferences` returns
normally if and only if the alps document was fetched, its top-level
descriptor matching the entity href was found, and for every `type "string"`
/ format `"uri"` property the field-descriptor / `rt` / referenced-entity /
referenced-schema lookup chain succeeds; equivalently, it terminates the run
fatally exactly when the document cannot be fetched or one of those matches
fails, and every fatal error names the entity being resolved.  In no failure
case does the resolver return normally with a half-resolved result. -/
theorem c8_resolution_error_cases (alps : Option AlpsDocument)
    (entity : EntityDescriptor) (schema : SchemaDocument) (selfIdx : Nat)
    (entities : List EntityDescriptor) (schemas : List SchemaDocument)
    (props : List (String × PropSchema))
    (hprops : schema.properties = some props) :
    ((∃ v, resolveUrlStringReferences alps entity schema selfIdx entities schemas
        = Except.ok v) ↔
      (∃ doc topDescriptor,
        alps = some doc ∧
        doc.descriptors.find? (fun d => d.href == some entity.href)
          = some topDescriptor ∧
        ∀ k ∈ relevantPropertyNames props, ∃ idx rs,
          descriptorTargetIdx topDescriptor.descriptors entities k = some idx ∧
          schemas[idx]? = some rs)) ∧
    (∀ m, resolveUrlStringReferences alps entity schema selfIdx entities schemas
        = Except.error m → m = entity.name) := by
  have hsome : ∀ k ∈ relevantPropertyNames props, (getProp props k).isSome = true := by
    intro k hk
    obtain ⟨p, hp, _, _⟩ := (mem_relevantPropertyNames props k).mp hk
    rw [hp]
    rfl
  constructor
  · constructor
    · rintro ⟨⟨schema', referenced⟩, hv⟩
      obtain ⟨doc, top, props2, props', halps, hfind, hprops2, hloop, _⟩ :=
        resolveUrlStringReferences_ok_inv hv
      rw [hprops] at hprops2
      obtain rfl : props = props2 := Option.some_inj.mp hprops2
      exact ⟨doc, top, halps, hfind, (resolveLoop_isOk_iff hsome).mp ⟨_, hloop⟩⟩
    · rintro ⟨doc, top, rfl, hfind, hall⟩
      obtain ⟨⟨props2, refs2⟩, hloop⟩ := (resolveLoop_isOk_iff hsome).mpr hall
      exact ⟨_, resolveUrlStringReferences_eq_ok hfind hprops hloop⟩
  · intro m hm
    exact resolveUrlStringReferences_error_name hm

/-! Facts about the normalizer (`preProcessSchemas` / `removeTrivialTitles`). -/

theorem removeTrivialTitles_cons (k0 : String) (p0 : PropSchema)
    (rest : List (String × PropSchema)) :
    removeTrivialTitles ((k0, p0) :: rest)
      = (k0, removeTrivialTitlesProp p0) :: removeTrivialTitles rest := rfl

mutual

theorem strip_idem_prop : ∀ p : PropSchema,
    removeTrivialTitlesProp (removeTrivialTitlesProp p) = removeTrivialTitlesProp p
  | .mk t f ti r props defs => by
    simp only [removeTrivialTitlesProp, strip_idem_opt props]
    by_cases h : jsTruthyStr r <;> simp [h]

theorem strip_idem_opt : ∀ o : Option (List (String × PropSchema)),
    removeTrivialTitlesOpt (removeTrivialTitlesOpt o) = removeTrivialTitlesOpt o
  | none => by simp [removeTrivialTitlesOpt]
  | some ps => by simp [removeTrivialTitlesOpt, strip_idem_list ps]

theorem strip_idem_list : ∀ ps : List (String × PropSchema),
    removeTrivialTitles (removeTrivialTitles ps) = removeTrivialTitles ps
  | [] => by simp [removeTrivialTitles]
  | (k, p) :: rest => by
    simp [removeTrivialTitles, strip_idem_prop p, strip_idem_list rest]

end

theorem getProp_removeTrivialTitles (ps : List (String × PropSchema)) (k : String) :
    getProp (removeTrivialTitles ps) k = (getProp ps k).map removeTrivialTitlesProp := by
  induction ps with
  | nil => rfl
  | cons kp rest ih =>
    obtain ⟨k0, p0⟩ := kp
    rw [removeTrivialTitles_cons, getProp_cons, getProp_cons]
    by_cases h0 : k0 = k
    · rw [if_pos (by simpa using h0), if_pos (by simpa using h0)]
      rfl
    · rw [if_neg (by simpa using h0), if_neg (by simpa using h0), ih]

theorem lookupPath_removeTrivialTitles :
    ∀ (path : List String) (ps : List (String × PropSchema)),
      lookupPath (removeTrivialTitles ps) path
        = (lookupPath ps path).map removeTrivialTitlesProp
  | [], _ => rfl
  | [k], ps => by
    unfold lookupPath
    exact getProp_removeTrivialTitles ps k
  | k :: k2 :: ks, ps => by
    unfold lookupPath
    rw [getProp_removeTrivialTitles]
    cases hg : getProp ps k with
    | none => rfl
    | some p =>
      obtain ⟨t, f, ti, r, props, defs⟩ := p
      cases props with
      | none => rfl
      | some ps2 =>
        show lookupPath (removeTrivialTitles ps2) (k2 :: ks)
          = (lookupPath ps2 (k2 :: ks)).map removeTrivialTitlesProp
        exact lookupPath_removeTrivialTitles (k2 :: ks) ps2

theorem preProcessSchema_properties (config : Config) (s : SchemaDocument)
    (hflag : config.noTrivialTypes = true) :
    (preProcessSchema config s).properties = removeTrivialTitlesOpt s.properties := by
  unfold preProcessSchema
  cases hA : config.noAdditionalProperties <;> simp [hflag, hA]

theorem preProcessSchema_definitions (config : Config) (s : SchemaDocument)
    (hflag : config.noTrivialTypes = true) :
    (preProcessSchema config s).definitions = removeTrivialTitlesOpt s.definitions := by
  unfold preProcessSchema
  cases hA : config.noAdditionalProperties <;> simp [hflag, hA]

theorem preProcessSchema_idem (config : Config) (s : SchemaDocument) :
    preProcessSchema config (preProcessSchema config s) = preProcessSchema config s := by
  obtain ⟨t, ps, ds, ap⟩ := s
  unfold preProcessSchema
  cases hA : config.noAdditionalProperties <;> cases hT : config.noTrivialTypes <;>
    simp [strip_idem_opt]

/-- C5: Normalizer idempotence.  For every schema list and every
configuration (any combination of the two flags), applying
`preProcessSchemas` twice yields the same schemas as applying it once. -/
theorem c5_normalizer_idempotent (schemas : List SchemaDocument) (config : Config) :
    preProcessSchemas (preProcessSchemas schemas config) config
      = preProcessSchemas schemas config := by
  unfold preProcessSchemas
  rw [List.map_map]
  exact List.map_congr_left fun s _ => preProcessSchema_idem config s

/-- C10: Normalizer identity.  With both configuration flags false,
`preProcessSchemas` leaves every schema of the list completely unchanged. -/
theorem c10_normalizer_identity (schemas : List SchemaDocument) :
    preProcessSchemas schemas (Config.mk false false) = schemas := by
  unfold preProcessSchemas preProcessSchema
  simp

/-- C6 (amended): with the strip-trivial-titles flag enabled the normalizer
never deletes the `title` of a property whose `$ref` is JavaScript-truthy
(present and not the empty string), at any nesting depth below the top-level
`properties` or `definitions` mapping.  The claim as frozen speaks of any
property that has a `$ref` field; a property whose `$ref` equals the empty
string has the field yet loses its title (see the counterexample), so
truthiness is the exact boundary. -/
theorem c6_ref_title_preserved (config : Config) (s : SchemaDocument)
    (path : List String) (q : PropSchema)
    (hflag : config.noTrivialTypes = true)
    (htruthy : jsTruthyStr q.ref = true) :
    (∀ ps, s.properties = some ps → lookupPath ps path = some q →
      ∃ ps', (preProcessSchema config s).properties = some ps' ∧
        lookupPath ps' path = some (removeTrivialTitlesProp q) ∧
        (removeTrivialTitlesProp q).title = q.title) ∧
    (∀ ds, s.definitions = some ds → lookupPath ds path = some q →
      ∃ ds', (preProcessSchema config s).definitions = some ds' ∧
        lookupPath ds' path = some (removeTrivialTitlesProp q) ∧
        (removeTrivialTitlesProp q).title = q.title) := by
  have htitle : (removeTrivialTitlesProp q).title = q.title := by
    rw [removeTrivialTitlesProp_title, if_pos htruthy]
  constructor
  · intro ps hps hlook
    refine ⟨removeTrivialTitles ps, ?_, ?_, htitle⟩
    · rw [preProcessSchema_properties config s hflag, hps]
      rfl
    · rw [lookupPath_removeTrivialTitles, hlook]
      rfl
  · intro ds hds hlook
    refine ⟨removeTrivialTitles ds, ?_, ?_, htitle⟩
    · rw [preProcessSchema_definitions config s hflag, hds]
      rfl
    · rw [lookupPath_removeTrivialTitles, hlook]
      rfl

/-- C7 (amended): with the strip-trivial-titles flag enabled, title deletion
inside the `definitions` substructure descends through nested `properties`
mappings without any depth bound — a `$ref`-less property at any
properties-nesting depth inside a definition entry loses its title (the
frozen claim's bound of one declared level does not hold, see the
counterexample) — while a definition entry's own nested `definitions`
mapping is never entered: that entire subtree is carried over unchanged. -/
theorem c7_definitions_descent (config : Config) (s : SchemaDocument)
    (ds : List (String × PropSchema)) (path : List String)
    (hflag : config.noTrivialTypes = true)
    (hd : s.definitions = some ds) :
    (preProcessSchema config s).definitions = some (removeTrivialTitles ds) ∧
    lookupPath (removeTrivialTitles ds) path
      = (lookupPath ds path).map removeTrivialTitlesProp ∧
    ∀ q, lookupPath ds path = some q →
      (jsTruthyStr q.ref = false → (removeTrivialTitlesProp q).title = none) ∧
      (removeTrivialTitlesProp q).definitions = q.definitions := by
  refine ⟨?_, lookupPath_removeTrivialTitles path ds, ?_⟩
  · rw [preProcessSchema_definitions config s hflag, hd]
    rfl
  · intro q _
    refine ⟨?_, removeTrivialTitlesProp_definitions q⟩
    intro hf
    rw [removeTrivialTitlesProp_title, hf]
    rfl

/-! The collector and discovery claims. -/

theorem collectSchemas_ok_of_isSome :
    ∀ (fetchSchema : String → Option SchemaDocument) (entities : List EntityDescriptor),
      (∀ e ∈ entities, (fetchSchema e.href).isSome = true) →
      collectSchemas fetchSchema entities
        = .ok (entities.map fun e => (fetchSchema e.href).getD emptySchemaDocument)
  | _, [], _ => rfl
  | fetchSchema, e :: rest, h => by
    obtain ⟨s, hs⟩ := Option.isSome_iff_exists.mp (h e (List.mem_cons_self _ _))
    have hrest := collectSchemas_ok_of_isSome fetchSchema rest
      (fun e2 he2 => h e2 (List.mem_cons_of_mem _ he2))
    unfold collectSchemas
    simp [hs, hrest]

/-- C3: Schema Collector correspondence.  When every per-entity schema fetch
succeeds, `collectSchemas` returns the list of fetched schemas in input
order: the result is exactly the input entity list mapped through the fetch
at its href, so it has the same length and the schema at index `i` is the one
fetched from the href of the entity at index `i`. -/
theorem c3_collector_correspondence (fetchSchema : String → Option SchemaDocument)
    (entities : List EntityDescriptor)
    (h : ∀ e ∈ entities, (fetchSchema e.href).isSome = true) :
    collectSchemas fetchSchema entities
      = .ok (entities.map fun e => (fetchSchema e.href).getD emptySchemaDocument) ∧
    ∀ l, collectSchemas fetchSchema entities = .ok l → l.length = entities.length := by
  refine ⟨collectSchemas_ok_of_isSome fetchSchema entities h, ?_⟩
  intro l hl
  rw [collectSchemas_ok_of_isSome fetchSchema entities h] at hl
  obtain rfl : _ = l := Except.ok.inj hl
  exact List.length_map _ _

theorem collectEntities_keys_lookup :
    ∀ links : List (String × ProfileLink), (links.map Prod.fst).Nodup →
      ((links.map Prod.fst).filter (fun k => k != "self")).map
        (fun k => EntityDescriptor.mk k
          (((links.find? (fun kl => kl.1 == k)).map (·.2.href)).getD ""))
        = (links.filter (fun kl => kl.1 != "self")).map
            (fun kl => EntityDescriptor.mk kl.1 kl.2.href) := by
  intro links
  induction links with
  | nil => intro _ ; rfl
  | cons kl rest ih =>
    obtain ⟨k0, l0⟩ := kl
    intro hnodup
    simp only [List.map_cons, List.nodup_cons] at hnodup
    have htail : ((rest.map Prod.fst).filter (fun k => k != "self")).map
        (fun k => EntityDescriptor.mk k
          (((((k0, l0) :: rest).find? (fun kl => kl.1 == k)).map (·.2.href)).getD ""))
        = ((rest.map Prod.fst).filter (fun k => k != "self")).map
          (fun k => EntityDescriptor.mk k
            (((rest.find? (fun kl => kl.1 == k)).map (·.2.href)).getD "")) := by
      refine List.map_congr_left ?_
      intro k hk
      have hkmem : k ∈ rest.map Prod.fst := (List.mem_filter.mp hk).1
      have hne : ¬((k0, l0).1 == k) = true := by
        simp only [beq_iff_eq]
        exact fun hh => hnodup.1 (by rw [show k0 = k from hh] ; exact hkmem)
      have hfind : List.find? (fun kl => kl.1 == k) ((k0, l0) :: rest)
          = List.find? (fun kl => kl.1 == k) rest := List.find?_cons_of_neg _ hne
      rw [hfind]
    rw [List.map_cons]
    by_cases hk0 : (k0 != "self") = true
    · rw [List.filter_cons_of_pos (by simpa using hk0),
        List.filter_cons_of_pos (by simpa using hk0),
        List.map_cons, List.map_cons, htail, ih hnodup.2]
      have hhead : List.find? (fun kl => kl.1 == k0) ((k0, l0) :: rest) = some (k0, l0) :=
        List.find?_cons_of_pos _ (by simp)
      rw [hhead]
      rfl
    · rw [List.filter_cons_of_neg (by simpa using hk0),
        List.filter_cons_of_neg (by simpa using hk0), htail, ih hnodup.2]

/-- C4: Entity Discovery.  For a profile document with a `_links` mapping
whose relation names are unique (JSON object keys), `collectEntities`
returns one EntityDescriptor `(name, href)` per link whose relation name is
not `self`, in the document's iteration order, and nothing else; in
particular there are exactly as many descriptors as non-self links. -/
theorem c4_entity_discovery (links : List (String × ProfileLink))
    (hnodup : (links.map Prod.fst).Nodup) :
    collectEntities (some ⟨some links⟩)
      = .ok ((links.filter (fun kl => kl.1 != "self")).map
          (fun kl => EntityDescriptor.mk kl.1 kl.2.href)) ∧
    ∀ result, collectEntities (some ⟨some links⟩) = .ok result →
      result.length = (links.filter (fun kl => kl.1 != "self")).length := by
  have hmain : collectEntities (some ⟨some links⟩)
      = .ok ((links.filter (fun kl => kl.1 != "self")).map
          (fun kl => EntityDescriptor.mk kl.1 kl.2.href)) := by
    show Except.ok _ = _
    exact congrArg Except.ok (collectEntities_keys_lookup links hnodup)
  refine ⟨hmain, ?_⟩
  intro result hres
  rw [hmain] at hres
  obtain rfl : _ = result := Except.ok.inj hres
  exact List.length_map _ _

/-- C9: no deduplication of the returned reference list.  In the magazines
scenario two distinct uri-format properties resolve to the authors entity
(index 1, not the resolving index 0): the resolver returns the reference
list [1, 1], whose schema values are the authors schema twice — the same
referenced schema appears more than once. -/
theorem c9_duplicate_references :
    resolveUrlStringReferences (some magazinesAlps) magazinesEntity magazinesSchema 0
        dupEntities dupSchemas = .ok (magazinesSchemaResolved, [1, 1]) ∧
    referencedSchemasOf dupSchemas [1, 1] = [authorsSchema, authorsSchema] ∧
    (1 : Nat) ≠ 0 ∧
    authorsSchema.title ≠ magazinesSchema.title := by
  refine ⟨?_, rfl, by decide, by decide⟩
  rfl

/-- C6 counterexample: the claim says the normalizer never deletes the title
of a property that has a `$ref` field.  `emptyRefProp` has the `$ref` field
(value `""`, which is falsy in JavaScript) and the title `Contact`; running
`preProcessSchemas` with the strip flag deletes that title. -/
theorem c6_counterexample :
    emptyRefProp.ref.isSome = true ∧
    emptyRefProp.title = some "Contact" ∧
    (removeTrivialTitlesProp emptyRefProp).title = none ∧
    preProcessSchemas [schemaWithEmptyRef] stripConfig
      = [⟨some "Sample",
          some [("contact", PropSchema.mk (some "string") none none (some "") none none)],
          none, none⟩] := by
  refine ⟨rfl, rfl, rfl, ?_⟩
  rfl

/-- C6 witness: the amended theorem applied to a schema holding a property
with the truthy `$ref` value `#/definitions/address` under key `addr`. -/
theorem c6_ref_title_preserved_witness :
    (stripConfig.noTrivialTypes = true ∧ jsTruthyStr refTitledProp.ref = true) ∧
    ((∀ ps, schemaWithRefProp.properties = some ps →
        lookupPath ps ["addr"] = some refTitledProp →
        ∃ ps', (preProcessSchema stripConfig schemaWithRefProp).properties = some ps' ∧
          lookupPath ps' ["addr"] = some (removeTrivialTitlesProp refTitledProp) ∧
          (removeTrivialTitlesProp refTitledProp).title = refTitledProp.title) ∧
      (∀ ds, schemaWithRefProp.definitions = some ds →
        lookupPath ds ["addr"] = some refTitledProp →
        ∃ ds', (preProcessSchema stripConfig schemaWithRefProp).definitions = some ds' ∧
          lookupPath ds' ["addr"] = some (removeTrivialTitlesProp refTitledProp) ∧
          (removeTrivialTitlesProp refTitledProp).title = refTitledProp.title)) :=
  ⟨⟨rfl, by decide⟩,
    c6_ref_title_preserved stripConfig schemaWithRefProp ["addr"] refTitledProp rfl
      (by decide)⟩

/-- C7 counterexample: the claim says a title on a `$ref`-less property
nested more than one level inside a definition entry is not deleted.
`deepTitledProp` sits at path `d.p.q` — two properties-levels inside the
definition entry `d` — is `$ref`-less and titled `Deep`, and the normalizer
with the strip flag deletes its title. -/
theorem c7_counterexample :
    lookupPath [("d", defEntryProp)] ["d", "p", "q"] = some deepTitledProp ∧
    deepTitledProp.ref = none ∧
    deepTitledProp.title = some "Deep" ∧
    schemaWithDeepDefinition.definitions = some [("d", defEntryProp)] ∧
    (((preProcessSchemas [schemaWithDeepDefinition] stripConfig).head?.bind
        SchemaDocument.definitions).bind
      (fun ds => lookupPath ds ["d", "p", "q"])).map PropSchema.title = some none := by
  exact ⟨rfl, rfl, rfl, rfl, rfl⟩

/-- C7 witness: the amended theorem applied to the deep-definition schema at
the path `d.p.q`. -/
theorem c7_definitions_descent_witness :
    (stripConfig.noTrivialTypes = true ∧
      schemaWithDeepDefinition.definitions = some [("d", defEntryProp)]) ∧
    ((preProcessSchema stripConfig schemaWithDeepDefinition).definitions
        = some (removeTrivialTitles [("d", defEntryProp)]) ∧
      lookupPath (removeTrivialTitles [("d", defEntryProp)]) ["d", "p", "q"]
        = (lookupPath [("d", defEntryProp)] ["d", "p", "q"]).map removeTrivialTitlesProp ∧
      ∀ q, lookupPath [("d", defEntryProp)] ["d", "p", "q"] = some q →
        (jsTruthyStr q.ref = false → (removeTrivialTitlesProp q).title = none) ∧
        (removeTrivialTitlesProp q).definitions = q.definitions) :=
  ⟨⟨rfl, rfl⟩,
    c7_definitions_descent stripConfig schemaWithDeepDefinition [("d", defEntryProp)]
      ["d", "p", "q"] rfl rfl⟩

/-- C1 witness: the resolver postcondition applied to the books/authors
scenario, where the `author` property resolves to the authors entity at
index 1 while the books entity itself sits at index 0. -/
theorem c1_resolver_postcondition_witness :
    (booksSchema.properties = some booksProps ∧
      (booksProps.map Prod.fst).Nodup ∧
      getProp booksProps "author" = some authorUriProp ∧
      authorUriProp.type = some "string" ∧
      authorUriProp.format = some "uri" ∧
      booksAlps.descriptors.find? (fun d => d.href == some booksEntity.href)
        = some booksTopDescriptor ∧
      descriptorTargetIdx booksTopDescriptor.descriptors demoEntities "author"
        = some 1 ∧
      demoSchemas[1]? = some authorsSchema ∧
      resolveUrlStringReferences (some booksAlps) booksEntity booksSchema 0
        demoEntities demoSchemas = .ok (booksSchemaResolved, [1])) ∧
    (∃ props' p',
      booksSchemaResolved.properties = some props' ∧
      getProp props' "author" = some p' ∧
      p'.type = some "object" ∧
      p'.format = none ∧
      p'.title = authorsSchema.title ∧
      p'.ref = authorUriProp.ref ∧
      p'.properties = authorUriProp.properties ∧
      p'.definitions = authorUriProp.definitions ∧
      ((1 : Nat) ∈ [1] ↔ (1 : Nat) ≠ 0)) := by
  refine ⟨⟨rfl, by decide, rfl, rfl, rfl, rfl, rfl, rfl, rfl⟩, ?_⟩
  exact c1_resolver_postcondition booksAlps booksEntity booksSchema 0 demoEntities
    demoSchemas booksSchemaResolved [1] booksProps "author" authorUriProp
    booksTopDescriptor 1 authorsSchema rfl (by decide) rfl rfl rfl rfl rfl rfl rfl

/-- C2 witness: the frame condition applied to the plain string property
`name` of the books schema, which the resolver leaves untouched at its
position. -/
theorem c2_resolver_frame_witness :
    (booksSchema.properties = some booksProps ∧
      (booksProps.map Prod.fst).Nodup ∧
      resolveUrlStringReferences (some booksAlps) booksEntity booksSchema 0
        demoEntities demoSchemas = .ok (booksSchemaResolved, [1]) ∧
      booksProps[1]? = some ("name", bookNameProp) ∧
      ¬(bookNameProp.type = some "string" ∧ bookNameProp.format = some "uri")) ∧
    ∃ props', booksSchemaResolved.properties = some props' ∧
      props'[1]? = some ("name", bookNameProp) := by
  refine ⟨⟨rfl, by decide, rfl, rfl, by decide⟩, ?_⟩
  exact c2_resolver_frame (some booksAlps) booksEntity booksSchema 0 demoEntities
    demoSchemas booksSchemaResolved [1] booksProps 1 "name" bookNameProp rfl
    (by decide) rfl rfl (by decide)

/-- C8 witness: the error-case characterization applied to the books/authors
scenario. -/
theorem c8_resolution_error_cases_witness :
    booksSchema.properties = some booksProps ∧
    (((∃ v, resolveUrlStringReferences (some booksAlps) booksEntity booksSchema 0
          demoEntities demoSchemas = Except.ok v) ↔
        (∃ doc topDescriptor,
          (some booksAlps : Option AlpsDocument) = some doc ∧
          doc.descriptors.find? (fun d => d.href == some booksEntity.href)
            = some topDescriptor ∧
          ∀ k ∈ relevantPropertyNames booksProps, ∃ idx rs,
            descriptorTargetIdx topDescriptor.descriptors demoEntities k = some idx ∧
            demoSchemas[idx]? = some rs)) ∧
      (∀ m, resolveUrlStringReferences (some booksAlps) booksEntity booksSchema 0
          demoEntities demoSchemas = Except.error m → m = booksEntity.name)) :=
  ⟨rfl, c8_resolution_error_cases (some booksAlps) booksEntity booksSchema 0
    demoEntities demoSchemas booksProps rfl⟩

/-- C3 witness: the collector correspondence applied to the books/authors
scenario with a fetch that serves both hrefs. -/
theorem c3_collector_correspondence_witness :
    (∀ e ∈ demoEntities, (demoFetchSchema e.href).isSome = true) ∧
    (collectSchemas demoFetchSchema demoEntities
        = .ok (demoEntities.map fun e =>
            (demoFetchSchema e.href).getD emptySchemaDocument) ∧
      ∀ l, collectSchemas demoFetchSchema demoEntities = .ok l →
        l.length = demoEntities.length) :=
  ⟨by decide, c3_collector_correspondence demoFetchSchema demoEntities (by decide)⟩

/-- C4 witness: discovery applied to the profile of the example scenario
(`self`, `books`, `authors`): the self link is dropped and the two entity
descriptors come out in document order. -/
theorem c4_entity_discovery_witness :
    (demoLinks.map Prod.fst).Nodup ∧
    (collectEntities (some ⟨some demoLinks⟩)
        = .ok ((demoLinks.filter (fun kl => kl.1 != "self")).map
            (fun kl => EntityDescriptor.mk kl.1 kl.2.href)) ∧
      ∀ result, collectEntities (some ⟨some demoLinks⟩) = .ok result →
        result.length = (demoLinks.filter (fun kl => kl.1 != "self")).length) :=
  ⟨by decide, c4_entity_discovery demoLinks (by decide)⟩
